import Mathlib

/-!
Shallow embedding of `src/comm/blockchain.js`: the `Blockchain` facade
(backend selection, `invokeSmartContract` timeout handling) and its
statistics engine (`getDefaultTxStats`, `mergeDefaultTxStats`).

Modelling conventions:
* JS numbers are exact rationals (`ℚ`).
* A numeric variable that may still be `undefined` is `Option ℚ`; a JS
  comparison `x < undefined` or `x > undefined` is `false`, and
  `undefined / 1000` is `NaN`, modelled as `none`.
* The `throughput` object has keys `Math.round(...).toString()`, i.e. decimal
  strings of integers, so it is modelled as a function `ℤ → ℕ` where an
  absent key reads as `0` (the code never stores a `0` count, so the two
  representations coincide).
* A thrown JS exception is `Except.error`.
-/

namespace Caliper

/-- The transaction status strings of the outcome-record contract:
`created`, `success`, `failed`. -/
inductive Status where
  | created : Status
  | success : Status
  | failed : Status
deriving DecidableEq

/-- Transaction Outcome Record fields read by the statistics engine.
The `id` and `result` fields are opaque and never inspected by
`getDefaultTxStats`, so they are omitted from the embedding. -/
structure Record where
  status : Status
  time_create : ℚ
  time_valid : ℚ
deriving DecidableEq

/-- JS `Math.round`: round half toward positive infinity. -/
def jsRound (q : ℚ) : ℤ := ⌊q + 1/2⌋

/-- Line 172 of the source: `let d = (valid - create) / 1000`. -/
def txDelay (r : Record) : ℚ := (r.time_valid - r.time_create) / 1000

/-- The local variables of the single pass in `getDefaultTxStats`
(lines 148-151 initialise them, lines 152-205 update them). -/
@[ext]
structure StatsAcc where
  succ : ℕ
  fail : ℕ
  delay : ℚ
  minValid : Option ℚ
  maxValid : Option ℚ
  minCreate : Option ℚ
  maxCreate : Option ℚ
  minDelay : ℚ
  maxDelay : ℚ
  throughput : ℤ → ℕ

/-- Initial values of the loop variables (lines 148-151): counters and the
delay sum start at `0`, the create/valid bounds start `undefined`,
`minDelay = 100000`, `maxDelay = 0`, and `throughput = {}`. -/
def initAcc : StatsAcc :=
  { succ := 0, fail := 0, delay := 0,
    minValid := none, maxValid := none,
    minCreate := none, maxCreate := none,
    minDelay := 100000, maxDelay := 0,
    throughput := fun _ => 0 }

/-- The `min` update of the `typeof min === 'undefined'` blocks
(lines 156-167 for `create`, 173-184 for `valid`): when the running min is
still `undefined` it is seeded with the value, otherwise it is lowered when
the value is smaller. -/
def jsMinUpd : Option ℚ → ℚ → Option ℚ
  | none, x => some x
  | some m, x => if x < m then some x else some m

/-- The companion `max` update of the same blocks: seeded together with the
min when that was `undefined`; otherwise raised when the value is larger.  In
the (unreachable from the initial state) case of a defined min but an
`undefined` max, the JS comparison `x > undefined` is `false` and the max
stays `undefined`. -/
def jsMaxUpd : Option ℚ → Option ℚ → ℚ → Option ℚ
  | none, _, x => some x
  | some _, none, _ => none
  | some _, some m, x => if x > m then some x else some m

/-- Lines 187-189: `if (d < minDelay) minDelay = d`. -/
def jsMinQ (m x : ℚ) : ℚ := if x < m then x else m

/-- Lines 190-192: `if (d > maxDelay) maxDelay = d`. -/
def jsMaxQ (m x : ℚ) : ℚ := if x > m then x else m

/-- Lines 194-200: increment throughput bucket `k`, an absent key counting
as `0`. -/
def bumpAt (tp : ℤ → ℕ) (k : ℤ) : ℤ → ℕ :=
  fun j => if j = k then tp j + 1 else tp j

/-- One iteration of the loop body of `getDefaultTxStats` (lines 152-205),
written field-wise: each field holds the net effect of the iteration on the
corresponding loop variable.  `create` bounds are updated for every record,
everything else only under `stat.status === 'success'`. -/
def statStep (a : StatsAcc) (stat : Record) : StatsAcc where
  succ := if stat.status = Status.success then a.succ + 1 else a.succ
  fail := if stat.status = Status.success then a.fail else a.fail + 1
  delay := if stat.status = Status.success then a.delay + txDelay stat else a.delay
  minValid :=
    if stat.status = Status.success then jsMinUpd a.minValid stat.time_valid
    else a.minValid
  maxValid :=
    if stat.status = Status.success then jsMaxUpd a.minValid a.maxValid stat.time_valid
    else a.maxValid
  minCreate := jsMinUpd a.minCreate stat.time_create
  maxCreate := jsMaxUpd a.minCreate a.maxCreate stat.time_create
  minDelay :=
    if stat.status = Status.success then jsMinQ a.minDelay (txDelay stat)
    else a.minDelay
  maxDelay :=
    if stat.status = Status.success then jsMaxQ a.maxDelay (txDelay stat)
    else a.maxDelay
  throughput :=
    if stat.status = Status.success then bumpAt a.throughput (jsRound stat.time_valid)
    else a.throughput

/-- The `min`/`max` pairs of the returned statistics object; `none` is the
`NaN` produced by `undefined / 1000`. -/
structure MinMax where
  min : Option ℚ
  max : Option ℚ
deriving DecidableEq

/-- The `delay` member of the returned statistics object. -/
structure DelayStat where
  min : ℚ
  max : ℚ
  sum : ℚ
deriving DecidableEq

/-- The `txStatistics` object documented at lines 129-139. -/
structure TxStatistics where
  succ : ℕ
  fail : ℕ
  create : MinMax
  valid : MinMax
  delay : DelayStat
  throughput : ℤ → ℕ
  out : List ℤ

/-- Lines 147-222: run the loop from the initial state and package the result,
dividing the create/valid bounds by 1000 (ms → s). -/
def getDefaultTxStats (results : List Record) : TxStatistics :=
  let a := results.foldl statStep initAcc
  { succ := a.succ
    fail := a.fail
    create := { min := a.minCreate.map (fun x => x / 1000),
                max := a.maxCreate.map (fun x => x / 1000) }
    valid := { min := a.minValid.map (fun x => x / 1000),
               max := a.maxValid.map (fun x => x / 1000) }
    delay := { min := a.minDelay, max := a.maxDelay, sum := a.delay }
    throughput := a.throughput
    out := [] }

/-- JS `a < b` on possibly-`NaN` numbers: any comparison involving `NaN`
is `false`. -/
def jsLtb (a b : Option ℚ) : Bool :=
  match a, b with
  | some x, some y => decide (x < y)
  | _, _ => false

/-- JS `a > b` on possibly-`NaN` numbers: any comparison involving `NaN`
is `false`. -/
def jsGtb (a b : Option ℚ) : Bool :=
  match a, b with
  | some x, some y => decide (x > y)
  | _, _ => false

/-- Loop body of `mergeDefaultTxStats` (lines 232-264): merge `v` into the
accumulator `r`.  Throughput merging (`for j in v.throughput`) adds `v`'s
count for every key present in `v` and leaves other keys alone; with absent
keys read as `0` this is the pointwise sum. -/
def mergeStep (r v : TxStatistics) : TxStatistics where
  succ := r.succ + v.succ
  fail := r.fail + v.fail
  create :=
    { min := if jsLtb v.create.min r.create.min then v.create.min else r.create.min
      max := if jsGtb v.create.max r.create.max then v.create.max else r.create.max }
  valid :=
    { min := if jsLtb v.valid.min r.valid.min then v.valid.min else r.valid.min
      max := if jsGtb v.valid.max r.valid.max then v.valid.max else r.valid.max }
  delay :=
    { min := if v.delay.min < r.delay.min then v.delay.min else r.delay.min
      max := if v.delay.max > r.delay.max then v.delay.max else r.delay.max
      sum := r.delay.sum + v.delay.sum }
  throughput := fun j => r.throughput j + v.throughput j
  out := r.out ++ v.out

/-- Lines 228-265: `mergeDefaultTxStats` returns `undefined` (here `none`)
on an empty array; otherwise it folds every later element into the first and
the merged result is the first object. -/
def mergeDefaultTxStats (results : List TxStatistics) : Option TxStatistics :=
  match results with
  | [] => none
  | r :: rest => some (rest.foldl mergeStep r)

/-- The records the loop treats as successful (`stat.status === 'success'`). -/
def successes (rs : List Record) : List Record :=
  rs.filter (fun r => decide (r.status = Status.success))

/-- The records that fall into the `else { fail++ }` branch (line 203). -/
def nonSuccesses (rs : List Record) : List Record :=
  rs.filter (fun r => decide (¬ r.status = Status.success))

/-- Latencies `(time_valid - time_create) / 1000` of the successful records. -/
def delays (rs : List Record) : List ℚ := (successes rs).map txDelay

/-- Number of successful records whose `Math.round(time_valid)` equals `j`:
the value the loop leaves in throughput bucket `j`. -/
def bucketCount (rs : List Record) (j : ℤ) : ℕ :=
  ((successes rs).map (fun r => jsRound r.time_valid)).count j

/-- Agreement of two statistics objects on the merge-relevant fields of the
C3 claim: `succ`, `fail`, `delay.sum` and every throughput bucket total. -/
def statsKeyEq (s t : TxStatistics) : Prop :=
  s.succ = t.succ ∧ s.fail = t.fail ∧ s.delay.sum = t.delay.sum ∧
    ∀ j, s.throughput j = t.throughput j

/-- The backend marker keys the `Blockchain` constructor probes with
`config.hasOwnProperty(...)` (lines 16, 21, 26). -/
structure Config where
  fabric : Bool
  sawtooth : Bool
  iroha : Bool
deriving DecidableEq

/-- The backend variants the constructor can select. -/
inductive BcType where
  | fabric : BcType
  | sawtooth : BcType
  | iroha : BcType
deriving DecidableEq

/-- The `throw new Error('Unknown blockchain config file ...')` of line 33,
the spec's `ConfigurationError`. -/
inductive ConfigurationError where
  | unknownBlockchain : ConfigurationError
deriving DecidableEq

/-- Lines 13-35: backend selection in the `Blockchain` constructor, probing
the marker keys in the fixed order fabric, sawtooth, iroha.  A thrown error
is `Except.error`: no facade value is produced, so the facade is unusable. -/
def blockchainConstructor (config : Config) : Except ConfigurationError BcType :=
  if config.fabric then Except.ok BcType.fabric
  else if config.sawtooth then Except.ok BcType.sawtooth
  else if config.iroha then Except.ok BcType.iroha
  else Except.error ConfigurationError.unknownBlockchain

/-- The JS value passed as `timeout`: a finite number, `NaN` (whose
`typeof` is `'number'`), `undefined` (absent argument), or any value of a
non-number type. -/
inductive TimeoutArg where
  | num (q : ℚ) : TimeoutArg
  | nan : TimeoutArg
  | undef : TimeoutArg
  | nonNumber : TimeoutArg
deriving DecidableEq

/-- JS `typeof timeout === 'number'`; true for finite numbers and `NaN`. -/
def timeoutIsNumberType : TimeoutArg → Bool
  | TimeoutArg.num _ => true
  | TimeoutArg.nan => true
  | _ => false

/-- JS `timeout < 0`: `NaN < 0` is `false`; thanks to `||` short-circuiting
this is only evaluated for number-typed values anyway. -/
def timeoutIsNeg : TimeoutArg → Bool
  | TimeoutArg.num q => decide (q < 0)
  | _ => false

/-- Lines 112-119: the timeout value `invokeSmartContract` forwards to
`this.bcObj.invokeSmartContract`; the remaining arguments are passed through
untouched in both branches, so the backend call is fully determined by this
value. -/
def invokeSmartContract (timeout : TimeoutArg) : TimeoutArg :=
  if !timeoutIsNumberType timeout || timeoutIsNeg timeout then TimeoutArg.num 120
  else timeout

@[simp]
lemma statStep_succ (a : StatsAcc) (r : Record) :
    (statStep a r).succ = if r.status = Status.success then a.succ + 1 else a.succ := rfl

@[simp]
lemma statStep_fail (a : StatsAcc) (r : Record) :
    (statStep a r).fail = if r.status = Status.success then a.fail else a.fail + 1 := rfl

@[simp]
lemma statStep_delay (a : StatsAcc) (r : Record) :
    (statStep a r).delay =
      if r.status = Status.success then a.delay + txDelay r else a.delay := rfl

@[simp]
lemma statStep_minValid (a : StatsAcc) (r : Record) :
    (statStep a r).minValid =
      if r.status = Status.success then jsMinUpd a.minValid r.time_valid
      else a.minValid := rfl

@[simp]
lemma statStep_maxValid (a : StatsAcc) (r : Record) :
    (statStep a r).maxValid =
      if r.status = Status.success then jsMaxUpd a.minValid a.maxValid r.time_valid
      else a.maxValid := rfl

@[simp]
lemma statStep_minCreate (a : StatsAcc) (r : Record) :
    (statStep a r).minCreate = jsMinUpd a.minCreate r.time_create := rfl

@[simp]
lemma statStep_maxCreate (a : StatsAcc) (r : Record) :
    (statStep a r).maxCreate = jsMaxUpd a.minCreate a.maxCreate r.time_create := rfl

@[simp]
lemma statStep_minDelay (a : StatsAcc) (r : Record) :
    (statStep a r).minDelay =
      if r.status = Status.success then jsMinQ a.minDelay (txDelay r)
      else a.minDelay := rfl

@[simp]
lemma statStep_maxDelay (a : StatsAcc) (r : Record) :
    (statStep a r).maxDelay =
      if r.status = Status.success then jsMaxQ a.maxDelay (txDelay r)
      else a.maxDelay := rfl

@[simp]
lemma statStep_throughput (a : StatsAcc) (r : Record) :
    (statStep a r).throughput =
      if r.status = Status.success then bumpAt a.throughput (jsRound r.time_valid)
      else a.throughput := rfl

/-- The `min` update seeds an `undefined` bound with the value. -/
lemma jsMinUpd_none (x : ℚ) : jsMinUpd none x = some x := rfl

/-- The `max` update seeds the bound with the value when the min was
`undefined`. -/
lemma jsMaxUpd_none (mx : Option ℚ) (x : ℚ) : jsMaxUpd none mx x = some x := rfl

/-- With a defined min but `undefined` max, the max stays `undefined`. -/
lemma jsMaxUpd_some_none (a x : ℚ) : jsMaxUpd (some a) none x = none := rfl

/-- The `min` update on a defined bound is the lattice `min`. -/
lemma jsMinUpd_some (m x : ℚ) : jsMinUpd (some m) x = some (min m x) := by
  simp only [jsMinUpd]
  split_ifs with h
  · exact congrArg some (min_eq_right h.le).symm
  · exact congrArg some (min_eq_left (le_of_not_lt h)).symm

/-- The `max` update on defined bounds is the lattice `max`. -/
lemma jsMaxUpd_some (a M x : ℚ) : jsMaxUpd (some a) (some M) x = some (max M x) := by
  simp only [jsMaxUpd]
  split_ifs with h
  · exact congrArg some (max_eq_right h.le).symm
  · exact congrArg some (max_eq_left (le_of_not_lt h)).symm

/-- The `minDelay` update is the lattice `min`. -/
lemma jsMinQ_eq_min (m x : ℚ) : jsMinQ m x = min m x := by
  simp only [jsMinQ]
  split_ifs with h
  · exact (min_eq_right h.le).symm
  · exact (min_eq_left (le_of_not_lt h)).symm

/-- The `maxDelay` update is the lattice `max`. -/
lemma jsMaxQ_eq_max (m x : ℚ) : jsMaxQ m x = max m x := by
  simp only [jsMaxQ]
  split_ifs with h
  · exact (max_eq_right h.le).symm
  · exact (max_eq_left (le_of_not_lt h)).symm

/-- Two consecutive `min` updates commute. -/
lemma jsMinUpd_comm (m : Option ℚ) (x y : ℚ) :
    jsMinUpd (jsMinUpd m x) y = jsMinUpd (jsMinUpd m y) x := by
  rcases m with _ | m <;>
    simp [jsMinUpd_none, jsMinUpd_some, min_assoc, min_comm, min_left_comm]

/-- Two consecutive coupled min/max updates commute on the `max` component. -/
lemma jsMaxUpd_comm (mn mx : Option ℚ) (x y : ℚ) :
    jsMaxUpd (jsMinUpd mn x) (jsMaxUpd mn mx x) y
      = jsMaxUpd (jsMinUpd mn y) (jsMaxUpd mn mx y) x := by
  rcases mn with _ | m <;> rcases mx with _ | M <;>
    simp [jsMinUpd_none, jsMinUpd_some, jsMaxUpd_none, jsMaxUpd_some_none,
      jsMaxUpd_some, max_assoc, max_comm, max_left_comm]

/-- Two consecutive `minDelay` updates commute. -/
lemma jsMinQ_comm (m x y : ℚ) : jsMinQ (jsMinQ m x) y = jsMinQ (jsMinQ m y) x := by
  simp [jsMinQ_eq_min, min_assoc, min_comm, min_left_comm]

/-- Two consecutive `maxDelay` updates commute. -/
lemma jsMaxQ_comm (m x y : ℚ) : jsMaxQ (jsMaxQ m x) y = jsMaxQ (jsMaxQ m y) x := by
  simp [jsMaxQ_eq_max, max_assoc, max_comm, max_left_comm]

/-- Two bucket increments commute. -/
lemma bumpAt_comm (tp : ℤ → ℕ) (k₁ k₂ : ℤ) :
    bumpAt (bumpAt tp k₁) k₂ = bumpAt (bumpAt tp k₂) k₁ := by
  funext j
  simp only [bumpAt]
  split_ifs <;> rfl

/-- Two loop iterations commute: the pass of `getDefaultTxStats` reaches the
same state whichever of two records it consumes first. -/
lemma statStep_comm (a : StatsAcc) (r s : Record) :
    statStep (statStep a r) s = statStep (statStep a s) r := by
  apply StatsAcc.ext <;>
    rcases hr1 : r.status <;> rcases hs1 : s.status <;>
    simp [hr1, hs1] <;>
    first
      | rfl
      | exact jsMinUpd_comm _ _ _
      | exact jsMaxUpd_comm _ _ _ _
      | exact jsMinQ_comm _ _ _
      | exact jsMaxQ_comm _ _ _
      | exact bumpAt_comm _ _ _
      | ring

/-- The whole pass is permutation-invariant on the accumulator. -/
lemma foldl_statStep_perm (rs₁ rs₂ : List Record) (p : List.Perm rs₁ rs₂)
    (a : StatsAcc) : rs₁.foldl statStep a = rs₂.foldl statStep a :=
  p.foldl_eq' (fun x _ y _ z => statStep_comm z x y) a

/-- C8: `getDefaultTxStats` is order-independent — two record sequences that
are permutations of each other produce equal aggregates in every field
(`succ`, `fail`, `create`, `valid`, `delay`, `throughput`, `out`). -/
theorem getDefaultTxStats_perm_invariant (rs₁ rs₂ : List Record)
    (h : List.Perm rs₁ rs₂) :
    getDefaultTxStats rs₁ = getDefaultTxStats rs₂ := by
  unfold getDefaultTxStats
  rw [foldl_statStep_perm rs₁ rs₂ h initAcc]

/-- C8 witness: swapping a success and a failure record yields the same
aggregate. -/
theorem getDefaultTxStats_perm_invariant_witness :
    getDefaultTxStats [⟨Status.success, 1000, 1500⟩, ⟨Status.failed, 2000, 0⟩]
      = getDefaultTxStats [⟨Status.failed, 2000, 0⟩, ⟨Status.success, 1000, 1500⟩] :=
  getDefaultTxStats_perm_invariant _ _ (List.Perm.swap _ _ _)

/-- C9: `getDefaultTxStats` on the empty record sequence returns (it is a
total function, so it cannot crash) the aggregate with `succ = 0`, `fail = 0`,
an empty throughput map, empty `out`, `delay.sum = 0`, and sentinel bounds:
`create` and `valid` bounds are `NaN` (`undefined / 1000`, modelled `none`),
and the `delay` bounds are the initial sentinels `min = 100000`, `max = 0`. -/
theorem getDefaultTxStats_nil :
    getDefaultTxStats [] =
      { succ := 0, fail := 0,
        create := { min := none, max := none },
        valid := { min := none, max := none },
        delay := { min := 100000, max := 0, sum := 0 },
        throughput := fun _ => 0,
        out := [] } := rfl

/-- C1: the code keys the throughput bucket by `Math.round(time_valid)` in
milliseconds, not by `round(time_valid / 1000)`: the successful record with
`time_create = 1000`, `time_valid = 1500` lands in bucket `1500`, and
bucket `2` (the one the claim and the spec scenario require) stays empty.
This contradicts the claim, the spec scenario, and the code's own comment
describing `throughput` as `tps of each time slot` alongside bounds kept
`in second`. -/
theorem throughput_bucket_milliseconds :
    (getDefaultTxStats [⟨Status.success, 1000, 1500⟩]).throughput 1500 = 1 ∧
    (getDefaultTxStats [⟨Status.success, 1000, 1500⟩]).throughput 2 = 0 := by
  constructor <;>
    norm_num [getDefaultTxStats, statStep, initAcc, txDelay, jsRound, bumpAt,
      jsMinUpd, jsMaxUpd, jsMinQ, jsMaxQ]

/-- C5 counterexample: a `NaN` timeout is forwarded unchanged, not replaced
by 120, because `typeof NaN === 'number'` and `NaN < 0` is `false`; so
calling with `NaN` does not behave like calling with `timeout = 120`. -/
theorem invokeSmartContract_nan_cex :
    invokeSmartContract TimeoutArg.nan ≠ TimeoutArg.num 120 := by decide

/-- C5 (amended): an absent (`undefined`) or non-number-typed timeout, and a
negative numeric timeout, are replaced by 120; a non-negative numeric timeout
passes through unchanged; a `NaN` timeout — number-typed and not `< 0` — is
forwarded unchanged rather than defaulted. -/
theorem invokeSmartContract_timeout_policy :
    invokeSmartContract TimeoutArg.undef = TimeoutArg.num 120 ∧
    invokeSmartContract TimeoutArg.nonNumber = TimeoutArg.num 120 ∧
    (∀ q : ℚ, q < 0 → invokeSmartContract (TimeoutArg.num q) = TimeoutArg.num 120) ∧
    (∀ q : ℚ, 0 ≤ q → invokeSmartContract (TimeoutArg.num q) = TimeoutArg.num q) ∧
    invokeSmartContract TimeoutArg.nan = TimeoutArg.nan := by
  refine ⟨rfl, rfl, ?_, ?_, rfl⟩
  · intro q h
    simp [invokeSmartContract, timeoutIsNumberType, timeoutIsNeg, h]
  · intro q h
    simp [invokeSmartContract, timeoutIsNumberType, timeoutIsNeg, not_lt.mpr h]

/-- C5 witness: the policy at the concrete timeouts `-1` and `5`. -/
theorem invokeSmartContract_timeout_policy_witness :
    invokeSmartContract (TimeoutArg.num (-1)) = TimeoutArg.num 120 ∧
    invokeSmartContract (TimeoutArg.num 5) = TimeoutArg.num 5 :=
  ⟨invokeSmartContract_timeout_policy.2.2.1 (-1) (by norm_num),
   invokeSmartContract_timeout_policy.2.2.2.1 5 (by norm_num)⟩

lemma successes_cons (r : Record) (rs : List Record) :
    successes (r :: rs) =
      if r.status = Status.success then r :: successes rs else successes rs := by
  by_cases h : r.status = Status.success <;> simp [successes, List.filter_cons, h]

lemma nonSuccesses_cons (r : Record) (rs : List Record) :
    nonSuccesses (r :: rs) =
      if r.status = Status.success then nonSuccesses rs else r :: nonSuccesses rs := by
  by_cases h : r.status = Status.success <;> simp [nonSuccesses, List.filter_cons, h]

lemma delays_cons (r : Record) (rs : List Record) :
    delays (r :: rs) =
      if r.status = Status.success then txDelay r :: delays rs else delays rs := by
  by_cases h : r.status = Status.success <;> simp [delays, successes_cons, h]

lemma bucketCount_cons (r : Record) (rs : List Record) (j : ℤ) :
    bucketCount (r :: rs) j = bucketCount rs j +
      (if r.status = Status.success ∧ jsRound r.time_valid = j then 1 else 0) := by
  by_cases h : r.status = Status.success <;>
    simp [bucketCount, successes_cons, h, List.count_cons]

lemma foldl_statStep_succ (rs : List Record) (a : StatsAcc) :
    (rs.foldl statStep a).succ = a.succ + (successes rs).length := by
  induction rs generalizing a with
  | nil => simp [successes]
  | cons r rs ih =>
    by_cases h : r.status = Status.success <;>
      simp [ih, successes_cons, h] <;> omega

lemma foldl_statStep_fail (rs : List Record) (a : StatsAcc) :
    (rs.foldl statStep a).fail = a.fail + (nonSuccesses rs).length := by
  induction rs generalizing a with
  | nil => simp [nonSuccesses]
  | cons r rs ih =>
    by_cases h : r.status = Status.success <;>
      simp [ih, nonSuccesses_cons, h] <;> omega

lemma foldl_statStep_delay (rs : List Record) (a : StatsAcc) :
    (rs.foldl statStep a).delay = a.delay + (delays rs).sum := by
  induction rs generalizing a with
  | nil => simp [delays, successes]
  | cons r rs ih =>
    by_cases h : r.status = Status.success <;>
      simp [ih, delays_cons, h, add_assoc]

lemma foldl_statStep_minDelay (rs : List Record) (a : StatsAcc) :
    (rs.foldl statStep a).minDelay = (delays rs).foldl min a.minDelay := by
  induction rs generalizing a with
  | nil => simp [delays, successes]
  | cons r rs ih =>
    by_cases h : r.status = Status.success <;>
      simp [ih, delays_cons, h, jsMinQ_eq_min]

lemma foldl_statStep_maxDelay (rs : List Record) (a : StatsAcc) :
    (rs.foldl statStep a).maxDelay = (delays rs).foldl max a.maxDelay := by
  induction rs generalizing a with
  | nil => simp [delays, successes]
  | cons r rs ih =>
    by_cases h : r.status = Status.success <;>
      simp [ih, delays_cons, h, jsMaxQ_eq_max]

lemma foldl_statStep_throughput (rs : List Record) (a : StatsAcc) (j : ℤ) :
    (rs.foldl statStep a).throughput j = a.throughput j + bucketCount rs j := by
  induction rs generalizing a with
  | nil => simp [bucketCount, successes]
  | cons r rs ih =>
    by_cases h : r.status = Status.success <;>
      simp [ih, bucketCount_cons, h, bumpAt] <;> split_ifs <;> omega

lemma getDefaultTxStats_succ (rs : List Record) :
    (getDefaultTxStats rs).succ = (successes rs).length := by
  simp [getDefaultTxStats, foldl_statStep_succ, initAcc]

lemma getDefaultTxStats_fail (rs : List Record) :
    (getDefaultTxStats rs).fail = (nonSuccesses rs).length := by
  simp [getDefaultTxStats, foldl_statStep_fail, initAcc]

lemma getDefaultTxStats_delaySum (rs : List Record) :
    (getDefaultTxStats rs).delay.sum = (delays rs).sum := by
  simp [getDefaultTxStats, foldl_statStep_delay, initAcc]

lemma getDefaultTxStats_delayMin (rs : List Record) :
    (getDefaultTxStats rs).delay.min = (delays rs).foldl min 100000 := by
  simp [getDefaultTxStats, foldl_statStep_minDelay, initAcc]

lemma getDefaultTxStats_delayMax (rs : List Record) :
    (getDefaultTxStats rs).delay.max = (delays rs).foldl max 0 := by
  simp [getDefaultTxStats, foldl_statStep_maxDelay, initAcc]

lemma getDefaultTxStats_throughput_eq (rs : List Record) (j : ℤ) :
    (getDefaultTxStats rs).throughput j = bucketCount rs j := by
  simp [getDefaultTxStats, foldl_statStep_throughput, initAcc]

lemma successes_length_add_nonSuccesses_length (rs : List Record) :
    (successes rs).length + (nonSuccesses rs).length = rs.length := by
  induction rs with
  | nil => simp [successes, nonSuccesses]
  | cons r rs ih =>
    by_cases h : r.status = Status.success <;>
      simp [successes_cons, nonSuccesses_cons, h] <;> omega

/-- C4: for every non-empty record sequence, the aggregate satisfies
`succ + fail = length of the input`. -/
theorem succ_add_fail_eq_length (rs : List Record) (h : rs ≠ []) :
    (getDefaultTxStats rs).succ + (getDefaultTxStats rs).fail = rs.length := by
  rw [getDefaultTxStats_succ, getDefaultTxStats_fail]
  exact successes_length_add_nonSuccesses_length rs

/-- C4 witness: a two-record sequence has `succ + fail = 2`. -/
theorem succ_add_fail_eq_length_witness :
    (getDefaultTxStats [⟨Status.success, 1000, 1500⟩, ⟨Status.failed, 2000, 0⟩]).succ
        + (getDefaultTxStats [⟨Status.success, 1000, 1500⟩, ⟨Status.failed, 2000, 0⟩]).fail
      = ([⟨Status.success, 1000, 1500⟩, ⟨Status.failed, 2000, 0⟩] : List Record).length :=
  succ_add_fail_eq_length _ (by simp)

/-- C10: every record whose status is not `success` — in particular every
`created` record — falls into the `else { fail++ }` branch, so `fail` is the
number of non-success records, i.e. the `created` count plus the `failed`
count. -/
theorem fail_counts_non_success (rs : List Record) :
    (getDefaultTxStats rs).fail = (nonSuccesses rs).length ∧
    (getDefaultTxStats rs).fail =
      (rs.filter fun r => decide (r.status = Status.created)).length +
      (rs.filter fun r => decide (r.status = Status.failed)).length := by
  refine ⟨getDefaultTxStats_fail rs, ?_⟩
  rw [getDefaultTxStats_fail]
  induction rs with
  | nil => simp [nonSuccesses]
  | cons r rs ih =>
    rcases hr : r.status <;>
      simp [nonSuccesses_cons, List.filter_cons, hr, ih] <;> omega

lemma foldl_min_le_init (ds : List ℚ) (c : ℚ) : ds.foldl min c ≤ c := by
  induction ds generalizing c with
  | nil => simp
  | cons d ds ih => exact le_trans (ih (min c d)) (min_le_left c d)

lemma foldl_min_le_mem (ds : List ℚ) (c d : ℚ) (hd : d ∈ ds) :
    ds.foldl min c ≤ d := by
  induction ds generalizing c with
  | nil => cases hd
  | cons e ds ih =>
    rcases List.mem_cons.mp hd with rfl | hd2
    · exact le_trans (foldl_min_le_init ds (min c d)) (min_le_right c d)
    · exact ih (min c e) hd2

lemma foldl_min_mem_or (ds : List ℚ) (c : ℚ) :
    ds.foldl min c = c ∨ ds.foldl min c ∈ ds := by
  induction ds generalizing c with
  | nil => exact Or.inl rfl
  | cons d ds ih =>
    rcases ih (min c d) with h | h
    · rcases le_or_lt c d with hcd | hcd
      · left
        rw [List.foldl_cons, h, min_eq_left hcd]
      · right
        rw [List.foldl_cons, h, min_eq_right hcd.le]
        exact List.mem_cons_self _ _
    · right
      rw [List.foldl_cons]
      exact List.mem_cons_of_mem _ h

lemma foldl_max_init_le (ds : List ℚ) (c : ℚ) : c ≤ ds.foldl max c := by
  induction ds generalizing c with
  | nil => simp
  | cons d ds ih => exact le_trans (le_max_left c d) (ih (max c d))

lemma foldl_max_mem_le (ds : List ℚ) (c d : ℚ) (hd : d ∈ ds) :
    d ≤ ds.foldl max c := by
  induction ds generalizing c with
  | nil => cases hd
  | cons e ds ih =>
    rcases List.mem_cons.mp hd with rfl | hd2
    · exact le_trans (le_max_right c d) (foldl_max_init_le ds (max c d))
    · exact ih (max c e) hd2

lemma foldl_max_mem_or (ds : List ℚ) (c : ℚ) :
    ds.foldl max c = c ∨ ds.foldl max c ∈ ds := by
  induction ds generalizing c with
  | nil => exact Or.inl rfl
  | cons d ds ih =>
    rcases ih (max c d) with h | h
    · rcases le_or_lt d c with hcd | hcd
      · left
        rw [List.foldl_cons, h, max_eq_left hcd]
      · right
        rw [List.foldl_cons, h, max_eq_right hcd.le]
        exact List.mem_cons_self _ _
    · right
      rw [List.foldl_cons]
      exact List.mem_cons_of_mem _ h

/-- C2 counterexample: a single successful record whose latency is
`200000 > 100000` seconds.  The claimed `delay.min` would be `200000`, the
only latency; the code leaves the initial sentinel `100000` because the
update `if (d < minDelay)` never fires. -/
theorem getDefaultTxStats_delay_min_cex :
    delays [⟨Status.success, 0, 200000000⟩] = [200000] ∧
    (getDefaultTxStats [⟨Status.success, 0, 200000000⟩]).delay.min = 100000 ∧
    (100000 : ℚ) ≠ 200000 := by
  refine ⟨?_, ?_, by norm_num⟩
  · norm_num [delays, successes, txDelay]
  · norm_num [getDefaultTxStats, statStep, initAcc, txDelay, jsMinQ, jsMaxQ,
      List.foldl]

/-- C2 (amended): over a record sequence with at least one successful record,
`delay.sum` is exactly the sum of the per-record latencies
`(time_valid - time_create)/1000` of the successful records; and provided
every such latency lies between the initial sentinels `0` and `100000`,
`delay.min` and `delay.max` are exactly the minimum and maximum of those
latencies.  (Without the bound the sentinels can survive: see the
counterexample.) -/
theorem getDefaultTxStats_delay_bounds (rs : List Record)
    (hex : ∃ r ∈ rs, r.status = Status.success)
    (hlow : ∀ d ∈ delays rs, 0 ≤ d)
    (hhigh : ∀ d ∈ delays rs, d ≤ 100000) :
    (getDefaultTxStats rs).delay.sum = (delays rs).sum ∧
    (getDefaultTxStats rs).delay.min ∈ delays rs ∧
    (∀ d ∈ delays rs, (getDefaultTxStats rs).delay.min ≤ d) ∧
    (getDefaultTxStats rs).delay.max ∈ delays rs ∧
    (∀ d ∈ delays rs, d ≤ (getDefaultTxStats rs).delay.max) := by
  obtain ⟨r0, hr0, hs0⟩ := hex
  have hd0 : txDelay r0 ∈ delays rs :=
    List.mem_map_of_mem _ (List.mem_filter.mpr ⟨hr0, by simp [hs0]⟩)
  refine ⟨getDefaultTxStats_delaySum rs, ?_, ?_, ?_, ?_⟩
  · rw [getDefaultTxStats_delayMin]
    rcases foldl_min_mem_or (delays rs) 100000 with h | h
    · have h1 := foldl_min_le_mem (delays rs) 100000 _ hd0
      rw [h] at h1
      have h2 : txDelay r0 = 100000 := le_antisymm (hhigh _ hd0) h1
      rw [h, ← h2]
      exact hd0
    · exact h
  · intro d hd
    rw [getDefaultTxStats_delayMin]
    exact foldl_min_le_mem _ _ _ hd
  · rw [getDefaultTxStats_delayMax]
    rcases foldl_max_mem_or (delays rs) 0 with h | h
    · have h1 := foldl_max_mem_le (delays rs) 0 _ hd0
      rw [h] at h1
      have h2 : txDelay r0 = 0 := le_antisymm h1 (hlow _ hd0)
      rw [h, ← h2]
      exact hd0
    · exact h
  · intro d hd
    rw [getDefaultTxStats_delayMax]
    exact foldl_max_mem_le _ _ _ hd

/-- C2 witness: the amended statement at the single successful record with
`time_create = 1000`, `time_valid = 1500` (latency `1/2`). -/
theorem getDefaultTxStats_delay_bounds_witness :
    (getDefaultTxStats [⟨Status.success, 1000, 1500⟩]).delay.sum
        = (delays [⟨Status.success, 1000, 1500⟩]).sum ∧
    (getDefaultTxStats [⟨Status.success, 1000, 1500⟩]).delay.min
        ∈ delays [⟨Status.success, 1000, 1500⟩] ∧
    (∀ d ∈ delays [⟨Status.success, 1000, 1500⟩],
      (getDefaultTxStats [⟨Status.success, 1000, 1500⟩]).delay.min ≤ d) ∧
    (getDefaultTxStats [⟨Status.success, 1000, 1500⟩]).delay.max
        ∈ delays [⟨Status.success, 1000, 1500⟩] ∧
    (∀ d ∈ delays [⟨Status.success, 1000, 1500⟩],
      d ≤ (getDefaultTxStats [⟨Status.success, 1000, 1500⟩]).delay.max) :=
  getDefaultTxStats_delay_bounds _
    ⟨⟨Status.success, 1000, 1500⟩, by simp, rfl⟩
    (by norm_num [delays, successes, txDelay])
    (by norm_num [delays, successes, txDelay])

lemma statStep_create_bounds (a : StatsAcc) (r : Record)
    (h : (a.minCreate = none ∧ a.maxCreate = none) ∨
      ∃ m M, a.minCreate = some m ∧ a.maxCreate = some M ∧ m ≤ M) :
    ∃ m M, (statStep a r).minCreate = some m ∧
      (statStep a r).maxCreate = some M ∧ m ≤ M := by
  rcases h with ⟨h1, h2⟩ | ⟨m, M, h1, h2, h3⟩
  · exact ⟨r.time_create, r.time_create,
      by simp [h1, jsMinUpd_none], by simp [h1, jsMaxUpd_none], le_refl _⟩
  · refine ⟨min m r.time_create, max M r.time_create,
      by simp [h1, jsMinUpd_some], by simp [h1, h2, jsMaxUpd_some], ?_⟩
    exact le_trans (min_le_left _ _) (le_trans h3 (le_max_left _ _))

lemma foldl_statStep_create_bounds (rs : List Record) (a : StatsAcc)
    (h : ∃ m M, a.minCreate = some m ∧ a.maxCreate = some M ∧ m ≤ M) :
    ∃ m M, (rs.foldl statStep a).minCreate = some m ∧
      (rs.foldl statStep a).maxCreate = some M ∧ m ≤ M := by
  induction rs generalizing a with
  | nil => exact h
  | cons r rs ih => exact ih _ (statStep_create_bounds a r (Or.inr h))

lemma statStep_valid_bounds (a : StatsAcc) (r : Record)
    (h : ∃ m M, a.minValid = some m ∧ a.maxValid = some M ∧ m ≤ M) :
    ∃ m M, (statStep a r).minValid = some m ∧
      (statStep a r).maxValid = some M ∧ m ≤ M := by
  obtain ⟨m, M, h1, h2, h3⟩ := h
  by_cases hr : r.status = Status.success
  · refine ⟨min m r.time_valid, max M r.time_valid,
      by simp [hr, h1, jsMinUpd_some], by simp [hr, h1, h2, jsMaxUpd_some], ?_⟩
    exact le_trans (min_le_left _ _) (le_trans h3 (le_max_left _ _))
  · exact ⟨m, M, by simp [hr, h1], by simp [hr, h2], h3⟩

lemma foldl_statStep_valid_bounds (rs : List Record) (a : StatsAcc)
    (h : ∃ m M, a.minValid = some m ∧ a.maxValid = some M ∧ m ≤ M) :
    ∃ m M, (rs.foldl statStep a).minValid = some m ∧
      (rs.foldl statStep a).maxValid = some M ∧ m ≤ M := by
  induction rs generalizing a with
  | nil => exact h
  | cons r rs ih => exact ih _ (statStep_valid_bounds a r h)

lemma foldl_statStep_valid_seed (rs : List Record) (a : StatsAcc)
    (hmn : a.minValid = none) (hmx : a.maxValid = none)
    (hne : successes rs ≠ []) :
    ∃ m M, (rs.foldl statStep a).minValid = some m ∧
      (rs.foldl statStep a).maxValid = some M ∧ m ≤ M := by
  induction rs generalizing a with
  | nil => exact absurd rfl hne
  | cons r rs ih =>
    by_cases hr : r.status = Status.success
    · exact foldl_statStep_valid_bounds rs (statStep a r)
        ⟨r.time_valid, r.time_valid,
          by simp [hr, hmn, jsMinUpd_none], by simp [hr, hmn, jsMaxUpd_none],
          le_refl _⟩
    · refine ih (statStep a r) (by simp [hr, hmn]) (by simp [hr, hmx]) ?_
      rw [successes_cons, if_neg hr] at hne
      exact hne

/-- C7: whenever `succ > 0`, the aggregate's `create`, `valid` and `delay`
bounds are ordered: each `min` is at most the corresponding `max` (with the
`create`/`valid` bounds being defined values, not `NaN`). -/
theorem aggregate_min_le_max (rs : List Record)
    (h : 0 < (getDefaultTxStats rs).succ) :
    (∃ a b, (getDefaultTxStats rs).create.min = some a ∧
      (getDefaultTxStats rs).create.max = some b ∧ a ≤ b) ∧
    (∃ a b, (getDefaultTxStats rs).valid.min = some a ∧
      (getDefaultTxStats rs).valid.max = some b ∧ a ≤ b) ∧
    (getDefaultTxStats rs).delay.min ≤ (getDefaultTxStats rs).delay.max := by
  have hsucc : successes rs ≠ [] := by
    intro hc
    rw [getDefaultTxStats_succ, hc] at h
    simp at h
  have hrs : rs ≠ [] := by
    rintro rfl
    exact hsucc rfl
  refine ⟨?_, ?_, ?_⟩
  · obtain ⟨r, t, rfl⟩ := List.exists_cons_of_ne_nil hrs
    obtain ⟨m, M, hm, hM, hle⟩ := foldl_statStep_create_bounds t
      (statStep initAcc r) (statStep_create_bounds initAcc r (Or.inl ⟨rfl, rfl⟩))
    refine ⟨m / 1000, M / 1000, ?_, ?_, by linarith⟩
    · show ((List.foldl statStep initAcc (r :: t)).minCreate).map
        (fun x => x / 1000) = some (m / 1000)
      rw [List.foldl_cons, hm]
      rfl
    · show ((List.foldl statStep initAcc (r :: t)).maxCreate).map
        (fun x => x / 1000) = some (M / 1000)
      rw [List.foldl_cons, hM]
      rfl
  · obtain ⟨m, M, hm, hM, hle⟩ :=
      foldl_statStep_valid_seed rs initAcc rfl rfl hsucc
    refine ⟨m / 1000, M / 1000, ?_, ?_, by linarith⟩
    · show ((List.foldl statStep initAcc rs).minValid).map
        (fun x => x / 1000) = some (m / 1000)
      rw [hm]
      rfl
    · show ((List.foldl statStep initAcc rs).maxValid).map
        (fun x => x / 1000) = some (M / 1000)
      rw [hM]
      rfl
  · have hds : delays rs ≠ [] := by
      simp only [delays]
      simpa using hsucc
    obtain ⟨d0, hd0⟩ := List.exists_mem_of_ne_nil _ hds
    rw [getDefaultTxStats_delayMin, getDefaultTxStats_delayMax]
    exact le_trans (foldl_min_le_mem _ _ _ hd0) (foldl_max_mem_le _ _ _ hd0)

/-- C7 witness: the ordered-bounds property at a concrete two-record input. -/
theorem aggregate_min_le_max_witness :
    (∃ a b, (getDefaultTxStats
        [⟨Status.success, 1000, 1500⟩, ⟨Status.failed, 2000, 0⟩]).create.min = some a ∧
      (getDefaultTxStats
        [⟨Status.success, 1000, 1500⟩, ⟨Status.failed, 2000, 0⟩]).create.max = some b ∧
      a ≤ b) ∧
    (∃ a b, (getDefaultTxStats
        [⟨Status.success, 1000, 1500⟩, ⟨Status.failed, 2000, 0⟩]).valid.min = some a ∧
      (getDefaultTxStats
        [⟨Status.success, 1000, 1500⟩, ⟨Status.failed, 2000, 0⟩]).valid.max = some b ∧
      a ≤ b) ∧
    (getDefaultTxStats
        [⟨Status.success, 1000, 1500⟩, ⟨Status.failed, 2000, 0⟩]).delay.min ≤
      (getDefaultTxStats
        [⟨Status.success, 1000, 1500⟩, ⟨Status.failed, 2000, 0⟩]).delay.max :=
  aggregate_min_le_max _ (by simp [getDefaultTxStats_succ, successes])

@[simp]
lemma mergeStep_succ (r v : TxStatistics) :
    (mergeStep r v).succ = r.succ + v.succ := rfl

@[simp]
lemma mergeStep_fail (r v : TxStatistics) :
    (mergeStep r v).fail = r.fail + v.fail := rfl

@[simp]
lemma mergeStep_delaySum (r v : TxStatistics) :
    (mergeStep r v).delay.sum = r.delay.sum + v.delay.sum := rfl

@[simp]
lemma mergeStep_throughput (r v : TxStatistics) (j : ℤ) :
    (mergeStep r v).throughput j = r.throughput j + v.throughput j := rfl

lemma foldl_mergeStep_succ (l : List TxStatistics) (r : TxStatistics) :
    (l.foldl mergeStep r).succ = r.succ + (l.map TxStatistics.succ).sum := by
  induction l generalizing r with
  | nil => simp
  | cons v l ih => simp [ih] ; omega

lemma foldl_mergeStep_fail (l : List TxStatistics) (r : TxStatistics) :
    (l.foldl mergeStep r).fail = r.fail + (l.map TxStatistics.fail).sum := by
  induction l generalizing r with
  | nil => simp
  | cons v l ih => simp [ih] ; omega

lemma foldl_mergeStep_delaySum (l : List TxStatistics) (r : TxStatistics) :
    (l.foldl mergeStep r).delay.sum
      = r.delay.sum + (l.map (fun s => s.delay.sum)).sum := by
  induction l generalizing r with
  | nil => simp
  | cons v l ih => simp [ih] ; ring

lemma foldl_mergeStep_throughput (l : List TxStatistics) (r : TxStatistics)
    (j : ℤ) :
    (l.foldl mergeStep r).throughput j
      = r.throughput j + (l.map (fun s => s.throughput j)).sum := by
  induction l generalizing r with
  | nil => simp
  | cons v l ih => simp [ih] ; omega

lemma successes_append (l₁ l₂ : List Record) :
    successes (l₁ ++ l₂) = successes l₁ ++ successes l₂ :=
  List.filter_append _ _

lemma nonSuccesses_append (l₁ l₂ : List Record) :
    nonSuccesses (l₁ ++ l₂) = nonSuccesses l₁ ++ nonSuccesses l₂ :=
  List.filter_append _ _

lemma successes_flatten_length (gs : List (List Record)) :
    (successes gs.flatten).length
      = (gs.map (fun g => (successes g).length)).sum := by
  induction gs with
  | nil => simp [successes]
  | cons g gs ih => simp [List.flatten_cons, successes_append, ih]

lemma nonSuccesses_flatten_length (gs : List (List Record)) :
    (nonSuccesses gs.flatten).length
      = (gs.map (fun g => (nonSuccesses g).length)).sum := by
  induction gs with
  | nil => simp [nonSuccesses]
  | cons g gs ih => simp [List.flatten_cons, nonSuccesses_append, ih]

lemma delays_append (l₁ l₂ : List Record) :
    delays (l₁ ++ l₂) = delays l₁ ++ delays l₂ := by
  simp [delays, successes_append]

lemma bucketCount_append (l₁ l₂ : List Record) (j : ℤ) :
    bucketCount (l₁ ++ l₂) j = bucketCount l₁ j + bucketCount l₂ j := by
  simp [bucketCount, successes_append, List.count_append]

lemma delays_flatten_sum (gs : List (List Record)) :
    (delays gs.flatten).sum = (gs.map (fun g => (delays g).sum)).sum := by
  induction gs with
  | nil => simp [delays, successes]
  | cons g gs ih =>
    rw [List.flatten_cons, delays_append, List.sum_append, ih, List.map_cons,
      List.sum_cons]

lemma bucketCount_flatten (gs : List (List Record)) (j : ℤ) :
    bucketCount gs.flatten j = (gs.map (fun g => bucketCount g j)).sum := by
  induction gs with
  | nil => simp [bucketCount, successes]
  | cons g gs ih =>
    rw [List.flatten_cons, bucketCount_append, ih, List.map_cons, List.sum_cons]

lemma mergeList_succ (gs : List (List Record)) (g : List Record) :
    ((gs.map getDefaultTxStats).foldl mergeStep (getDefaultTxStats g)).succ
      = ((g :: gs).map (fun x => (successes x).length)).sum := by
  rw [foldl_mergeStep_succ]
  simp [List.map_map, Function.comp_def, getDefaultTxStats_succ]

lemma mergeList_fail (gs : List (List Record)) (g : List Record) :
    ((gs.map getDefaultTxStats).foldl mergeStep (getDefaultTxStats g)).fail
      = ((g :: gs).map (fun x => (nonSuccesses x).length)).sum := by
  rw [foldl_mergeStep_fail]
  simp [List.map_map, Function.comp_def, getDefaultTxStats_fail]

lemma mergeList_delaySum (gs : List (List Record)) (g : List Record) :
    ((gs.map getDefaultTxStats).foldl mergeStep (getDefaultTxStats g)).delay.sum
      = ((g :: gs).map (fun x => (delays x).sum)).sum := by
  rw [foldl_mergeStep_delaySum]
  simp [List.map_map, Function.comp_def, getDefaultTxStats_delaySum]

lemma mergeList_throughput (gs : List (List Record)) (g : List Record) (j : ℤ) :
    ((gs.map getDefaultTxStats).foldl mergeStep (getDefaultTxStats g)).throughput j
      = ((g :: gs).map (fun x => bucketCount x j)).sum := by
  rw [foldl_mergeStep_throughput]
  simp [List.map_map, Function.comp_def, getDefaultTxStats_throughput_eq]

/-- C3: merging is commutative and associative on the merge-relevant fields
(`succ`, `fail`, `delay.sum`, per-bucket throughput), and aggregating the
groups of any partition of a record set separately, then merging the group
aggregates in any order, agrees on those fields with aggregating the whole
set directly. -/
theorem mergeDefaultTxStats_assoc_comm :
    (∀ a b : TxStatistics, statsKeyEq (mergeStep a b) (mergeStep b a)) ∧
    (∀ a b c : TxStatistics,
      statsKeyEq (mergeStep (mergeStep a b) c) (mergeStep a (mergeStep b c))) ∧
    ∀ gs gsP : List (List Record), List.Perm gsP gs → gs ≠ [] →
      ∃ m, mergeDefaultTxStats (gsP.map getDefaultTxStats) = some m ∧
        statsKeyEq m (getDefaultTxStats gs.flatten) := by
  refine ⟨?_, ?_, ?_⟩
  · intro a b
    exact ⟨Nat.add_comm _ _, Nat.add_comm _ _, add_comm _ _,
      fun j => Nat.add_comm _ _⟩
  · intro a b c
    exact ⟨Nat.add_assoc _ _ _, Nat.add_assoc _ _ _, add_assoc _ _ _,
      fun j => Nat.add_assoc _ _ _⟩
  · intro gs gsP hp hne
    have hneP : gsP ≠ [] := by
      rintro rfl
      exact hne hp.symm.eq_nil
    obtain ⟨g, t, rfl⟩ := List.exists_cons_of_ne_nil hneP
    refine ⟨_, rfl, ?_, ?_, ?_, ?_⟩
    · rw [mergeList_succ, getDefaultTxStats_succ, successes_flatten_length]
      exact (hp.map (fun x => (successes x).length)).sum_eq
    · rw [mergeList_fail, getDefaultTxStats_fail, nonSuccesses_flatten_length]
      exact (hp.map (fun x => (nonSuccesses x).length)).sum_eq
    · rw [mergeList_delaySum, getDefaultTxStats_delaySum, delays_flatten_sum]
      exact (hp.map (fun x => (delays x).sum)).sum_eq
    · intro j
      rw [mergeList_throughput, getDefaultTxStats_throughput_eq, bucketCount_flatten]
      exact (hp.map (fun x => bucketCount x j)).sum_eq

/-- C3 witness: the partition `[[success record], [failed record]]`, its
groups aggregated separately and merged in swapped order, agrees with the
direct aggregate of the joined set on the merge-relevant fields. -/
theorem mergeDefaultTxStats_assoc_comm_witness :
    ∃ m, mergeDefaultTxStats
        ([[⟨Status.failed, 2000, 0⟩], [⟨Status.success, 1000, 1500⟩]].map
          getDefaultTxStats) = some m ∧
      statsKeyEq m (getDefaultTxStats
        ([[⟨Status.success, 1000, 1500⟩], [⟨Status.failed, 2000, 0⟩]] :
          List (List Record)).flatten) :=
  mergeDefaultTxStats_assoc_comm.2.2 _ _ (List.Perm.swap _ _ _) (by simp)

/-- C6: a configuration with none of the marker keys `fabric`, `sawtooth`,
`iroha` makes the constructor throw the `ConfigurationError` (so no facade
value exists and the facade is unusable); with at least one marker key the
selection step does not throw. -/
theorem blockchain_constructor_selection (c : Config) :
    ((c.fabric = false ∧ c.sawtooth = false ∧ c.iroha = false) →
      blockchainConstructor c = Except.error ConfigurationError.unknownBlockchain) ∧
    ((c.fabric = true ∨ c.sawtooth = true ∨ c.iroha = true) →
      ∃ t, blockchainConstructor c = Except.ok t) := by
  obtain ⟨f, s, i⟩ := c
  cases f <;> cases s <;> cases i <;> simp [blockchainConstructor]

/-- C6 witness: the markerless configuration throws, and a configuration
carrying the `sawtooth` marker selects a backend. -/
theorem blockchain_constructor_selection_witness :
    blockchainConstructor ⟨false, false, false⟩ =
      Except.error ConfigurationError.unknownBlockchain ∧
    ∃ t, blockchainConstructor ⟨false, true, false⟩ = Except.ok t :=
  ⟨(blockchain_constructor_selection ⟨false, false, false⟩).1 ⟨rfl, rfl, rfl⟩,
   (blockchain_constructor_selection ⟨false, true, false⟩).2 (Or.inr (Or.inl rfl))⟩

end Caliper
